import Mathlib

set_option maxHeartbeats 1000000

namespace LLRT

/-- Modulus of the 32-bit unsigned arithmetic used by the launcher. -/
def U32 : Nat := 4294967296

/-- Byte lookup in a buffer modelled as a list of bytes; out-of-range reads give 0. -/
def getB : List Nat → Nat → Nat
  | [], _ => 0
  | b :: _, 0 => b
  | _ :: l, k + 1 => getB l k

/-- Little-endian u32 read at a byte offset (the uint32_t views taken by readData). -/
def readU32 (d : List Nat) (off : Nat) : Nat :=
  getB d off + 256 * getB d (off + 1) + 65536 * getB d (off + 2) + 16777216 * getB d (off + 3)

/-- sumArray from src/llrt/src/main.c lines 109-117: uint32_t accumulation. -/
def sumArrayU32 (l : List Nat) : Nat := l.foldl (fun s x => (s + x) % U32) 0

/-- uint32_t subtraction with wraparound. -/
def u32sub (a b : Nat) : Nat := (a % U32 + (U32 - b % U32)) % U32

/-- Result of readData (src/llrt/src/main.c lines 169-194). -/
structure ParsedPayload where
  inputSizes : List Nat
  outputSizes : List Nat
  dataOffset : Nat
  uncompressedSize : Nat
  extraDataOffset : Nat

/-- readData from src/llrt/src/main.c lines 169-194. The size arrays are the
u32 views at byte offsets 1 and 1 + 4*parts; dataOffset is assigned to a
uint8_t in the source, hence the mod 256; extraDataOffset is uint32_t
arithmetic. parts is a uint8_t. -/
def readData (data : List Nat) (parts : Nat) : ParsedPayload :=
  let metadataSize := 4 * parts
  let inputSizes := (List.range parts).map (fun i => readU32 data (1 + 4 * i))
  let outputSizes := (List.range parts).map (fun i => readU32 data (1 + metadataSize + 4 * i))
  let uncompressedSize := sumArrayU32 outputSizes
  let totalInputSize := sumArrayU32 inputSizes
  let dataOffset := (1 + 2 * metadataSize) % 256
  { inputSizes := inputSizes
    outputSizes := outputSizes
    dataOffset := dataOffset
    uncompressedSize := uncompressedSize
    extraDataOffset := (dataOffset + totalInputSize) % U32 }

/-- DecompressThreadArgs (src/llrt/src/main.c lines 126-136), with the
pointers replaced by offsets: inputOff and extraSrcOff are into the payload,
outputOff and extraDstOff into the destination region. -/
structure ThreadArgs where
  srcSize : Nat
  dstSize : Nat
  id : Nat
  extraSize : Nat
  inputOff : Nat
  outputOff : Nat
  extraSrcOff : Nat
  extraDstOff : Nat

def argDefault : ThreadArgs := ⟨0, 0, 0, 0, 0, 0, 0, 0⟩

instance : Inhabited ThreadArgs := ⟨argDefault⟩

/-- Overwrite bytes.length bytes of the destination region at offset off. -/
def writeBytes (buf : Nat → Nat) (off : Nat) (bytes : List Nat) : Nat → Nat :=
  fun a => if off ≤ a ∧ a < off + bytes.length then getB bytes (a - off) else buf a

/-- ZSTD_decompress semantics over a decoder oracle: the oracle either
reports corruption (none) or yields the frame content; the call fails when
the content exceeds the destination capacity and succeeds otherwise (content
smaller than the capacity is not an error and is not diagnosed). -/
def zstdRun (zstd : List Nat → Option (List Nat)) (src : List Nat) (dstCapacity : Nat) :
    Option (List Nat) :=
  match zstd src with
  | none => none
  | some out => if out.length ≤ dstCapacity then some out else none

/-- decompressPartial (src/llrt/src/main.c lines 138-165): runs
ZSTD_decompress on the part's slice; on a decoder error it returns failure
(the C code returns (void *)1) and skips the extra copy; on success the task
with id 0 additionally copies the extra segment. A failing decode is
modelled as leaving the buffer unchanged. -/
def decompressPartial (zstd : List Nat → Option (List Nat)) (payload : List Nat)
    (buf : Nat → Nat) (a : ThreadArgs) : (Nat → Nat) × Bool :=
  match zstdRun zstd ((payload.drop a.inputOff).take a.srcSize) a.dstSize with
  | none => (buf, false)
  | some out =>
      let buf1 := writeBytes buf a.outputOff out
      let buf2 :=
        if a.id = 0 then
          writeBytes buf1 a.extraDstOff ((payload.drop a.extraSrcOff).take a.extraSize)
        else buf1
      (buf2, true)

/-- One iteration of the argument-construction loop (src/llrt/src/main.c
lines 238-253): sizes and running offsets of part i; only part 0 carries
the extra-segment copy (args[i].extraSize is 0 first and overwritten for
i == 0); inputBuffer is compressedData + inputOffset, hence dataOffset +
inOff. -/
def mkArg (dataOffset extraSrcOff extraSize extraDstOff inSz outSz i inOff outOff : Nat) :
    ThreadArgs :=
  { srcSize := inSz, dstSize := outSz, id := i,
    extraSize := if i = 0 then extraSize else 0,
    inputOff := dataOffset + inOff,
    outputOff := outOff,
    extraSrcOff := extraSrcOff,
    extraDstOff := extraDstOff }

/-- The argument-construction loop of decompress (src/llrt/src/main.c lines
237-253): per part, the running input/output offsets (uint32_t accumulators)
and sizes. -/
def mkArgsAux (dataOffset extraSrcOff extraSize extraDstOff : Nat) :
    List (Nat × Nat) → Nat → Nat → Nat → List ThreadArgs
  | [], _, _, _ => []
  | (inSz, outSz) :: rest, i, inOff, outOff =>
      mkArg dataOffset extraSrcOff extraSize extraDstOff inSz outSz i inOff outOff ::
      mkArgsAux dataOffset extraSrcOff extraSize extraDstOff rest (i + 1)
        ((inOff + inSz) % U32) ((outOff + outSz) % U32)

/-- The parallel path (parts > 1): every task runs, and pthread_join
discards the per-thread status (src/llrt/src/main.c lines 267-274), so task
failures are never observed. The tasks write disjoint ranges, which makes
the thread interleaving immaterial; they are modelled sequentially. -/
def runTasksPar (zstd : List Nat → Option (List Nat)) (payload : List Nat) :
    (Nat → Nat) → List ThreadArgs → (Nat → Nat)
  | buf, [] => buf
  | buf, a :: rest => runTasksPar zstd payload (decompressPartial zstd payload buf a).1 rest

/-- The synchronous path (parts <= 1): a failing part aborts the process via
err(1, ...) (src/llrt/src/main.c lines 258-264); none models the abort. -/
def runTasksSync (zstd : List Nat → Option (List Nat)) (payload : List Nat) :
    (Nat → Nat) → List ThreadArgs → Option (Nat → Nat)
  | buf, [] => some buf
  | buf, a :: rest =>
      match decompressPartial zstd payload buf a with
      | (buf1, true) => runTasksSync zstd payload buf1 rest
      | (_, false) => none

/-- parts = *(uint8_t *)payload (src/llrt/src/main.c line 199). -/
def payloadParts (payload : List Nat) : Nat := getB payload 0 % 256

/-- extraSize = payloadSize - extraDataOffset - sizeof(int32_t), in uint32_t
arithmetic (src/llrt/src/main.c line 221). -/
def decompressExtraSize (payload : List Nat) (payloadSize : Nat) : Nat :=
  u32sub (u32sub payloadSize (readData payload (payloadParts payload)).extraDataOffset) 4

/-- The task list decompress builds before spawning or running the tasks. -/
def decompressArgs (payload : List Nat) (payloadSize : Nat) : List ThreadArgs :=
  let p := readData payload (payloadParts payload)
  mkArgsAux p.dataOffset p.extraDataOffset (decompressExtraSize payload payloadSize)
    p.uncompressedSize (p.inputSizes.zip p.outputSizes) 0 0 0

/-- What decompress hands back to main: the destination region, its reported
uncompressed size and extra-data offset; regionSize is the length passed to
ftruncate and mmap (uncompressedSize + extraSize in uint32_t). -/
structure DecompressResult where
  buf : Nat → Nat
  uncompressedSize : Nat
  extraDataOffset : Nat
  regionSize : Nat

/-- decompress (src/llrt/src/main.c lines 196-277). The destination region
is zero-filled by ftruncate on the fresh memfd. none models the err(1)
abort of the synchronous path; the parallel path has no abort. -/
def decompress (zstd : List Nat → Option (List Nat)) (payload : List Nat) (payloadSize : Nat) :
    Option DecompressResult :=
  let parts := payloadParts payload
  let p := readData payload parts
  let extraSize := decompressExtraSize payload payloadSize
  let regionSize := (p.uncompressedSize + extraSize) % U32
  let args := decompressArgs payload payloadSize
  if parts > 1 then
    some ⟨runTasksPar zstd payload (fun _ => 0) args, p.uncompressedSize, p.extraDataOffset,
      regionSize⟩
  else
    match runTasksSync zstd payload (fun _ => 0) args with
    | some buf => some ⟨buf, p.uncompressedSize, p.extraDataOffset, regionSize⟩
    | none => none

/-- Bundled success condition on a task list: each task's input slice
decodes to the given content, of exactly the declared destination size. -/
def tasksOK (zstd : List Nat → Option (List Nat)) (payload : List Nat) :
    List ThreadArgs → List (List Nat) → Bool
  | [], [] => true
  | a :: args, o :: os =>
      decide (zstd ((payload.drop a.inputOff).take a.srcSize) = some o) &&
      decide (o.length = a.dstSize) && tasksOK zstd payload args os
  | _, _ => false

/-- Concatenation of the per-part decompressed contents. -/
def flat : List (List Nat) → List Nat
  | [] => []
  | l :: ls => l ++ flat ls

/-- A decoder oracle for the failure-injection scenario: the block [5]
decodes to [9]; every other block, in particular the corrupted block [6], is
reported as corrupt. -/
def zstdBadW : List Nat → Option (List Nat) :=
  fun src => if src = [5] then some [9] else none

/-- A single-part payload whose only block is the corrupted block [6]:
part_count 1, input_sizes [1], output_sizes [1], block byte 6, no extra
segment, 4 trailer bytes; payloadSize 14. -/
def payloadSingleBad : List Nat := [1, 1, 0, 0, 0, 1, 0, 0, 0, 6, 0, 0, 0, 0]

/-- A two-part payload whose second block is the corrupted block [6]:
part_count 2, input_sizes [1, 1], output_sizes [1, 1], blocks [5] and [6],
no extra segment, 4 trailer bytes; payloadSize 23. -/
def payloadPar2 : List Nat :=
  [2, 1, 0, 0, 0, 1, 0, 0, 0, 1, 0, 0, 0, 1, 0, 0, 0, 5, 6, 0, 0, 0, 0]

/-- A decoder oracle for the equivalence scenario: block [1] decodes to
[10], block [2] to [20, 30], and block [3] to their concatenation
[10, 20, 30]. -/
def zstdW6 : List Nat → Option (List Nat) :=
  fun src =>
    if src = [1] then some [10]
    else if src = [2] then some [20, 30]
    else if src = [3] then some [10, 20, 30] else none

/-- A single-part payload: part_count 1, input_sizes [1], output_sizes [3],
block [3], extra segment [7, 8], trailer; payloadSize 16. -/
def payloadW1 : List Nat := [1, 1, 0, 0, 0, 3, 0, 0, 0, 3, 7, 8, 0, 0, 0, 0]

/-- The same logical content split in two parts: part_count 2, input_sizes
[1, 1], output_sizes [1, 2], blocks [1] and [2], extra segment [7, 8],
trailer; payloadSize 25. -/
def payloadW2 : List Nat :=
  [2, 1, 0, 0, 0, 1, 0, 0, 0, 1, 0, 0, 0, 2, 0, 0, 0, 1, 2, 7, 8, 0, 0, 0, 0]

/-- The process environment, modelled as an association list in lookup order. -/
abbrev Env : Type := List (String × String)

/-- getenv. -/
def getenvE : Env → String → Option String
  | [], _ => none
  | (k1, v) :: e, k => if k1 = k then some v else getenvE e k

/-- setenv(k, v, overwrite): replaces the value when the name is present and
overwrite is nonzero, keeps it when overwrite is zero, and appends the
binding when the name is absent. -/
def setenvE : Env → String → String → Bool → Env
  | [], k, v, _ => [(k, v)]
  | (k1, w) :: e, k, v, ow =>
      if k1 = k then (if ow then (k, v) :: e else (k1, w) :: e)
      else (k1, w) :: setenvE e k v ow

/-- The setenv sequence main executes before the handoff (src/llrt/src/main.c
lines 399-406 and 440-445): the variable underscore is written with
overwrite = true inside the argv loop; the six configurator variables are
written with overwrite = false. Runs that reach this code have argc >= 1, so
the i = 0 iteration that sets the underscore variable always executes. -/
def publishEnv (env : Env) (underscoreVal startTimeVal reserveVal fdVal bcOffVal bcSizeVal : String) :
    Env :=
  let e1 := setenvE env "_" underscoreVal true
  let e2 := setenvE e1 "_START_TIME" startTimeVal false
  let e3 := setenvE e2 "MIMALLOC_RESERVE_OS_MEMORY" reserveVal false
  let e4 := setenvE e3 "MIMALLOC_LIMIT_OS_ALLOC" "1" false
  let e5 := setenvE e4 "LLRT_MEM_FD" fdVal false
  let e6 := setenvE e5 "LLRT_BYTECODE_OFFSET" bcOffVal false
  setenvE e6 "LLRT_BYTECODE_SIZE" bcSizeVal false

/-- The six variables the Environment Configurator publishes without
overwriting (src/llrt/src/main.c lines 440-445). -/
def publishedVars : List String :=
  ["_START_TIME", "MIMALLOC_RESERVE_OS_MEMORY", "MIMALLOC_LIMIT_OS_ALLOC",
   "LLRT_MEM_FD", "LLRT_BYTECODE_OFFSET", "LLRT_BYTECODE_SIZE"]

/-- sprintf("%i", x) applied to a uint32_t value: the value is reinterpreted
as a signed 32-bit int and printed in decimal. -/
def i32str (n : Nat) : String :=
  if n < 2147483648 then toString n else toString ((n : Int) - 4294967296)

/-- The memory-factor staircase of main (src/llrt/src/main.c lines 423-435),
as a percentage. The three ifs are sequential and each comparison is strict.
The double constants 0.8, 0.9, 0.92, 0.95 are modelled by exact percentages:
over the int range of the budget, truncating the double product
memorySize * memoryFactor toward zero agrees with exact rational
arithmetic, because the products stay within 2^53 and the rounding error of
the constants never crosses an integer boundary. -/
def memoryFactorPct (m : Int) : Nat :=
  let f1 := 80
  let f2 := if m > 512 then 90 else f1
  let f3 := if m > 1024 then 92 else f2
  if m > 2048 then 95 else f3

/-- (int)(memorySize * memoryFactor): C casts truncate toward zero, which is
Int.div. -/
def mimallocReserveMiB (m : Int) : Int := Int.tdiv (m * (memoryFactorPct m : Int)) 100

/-- The string published in MIMALLOC_RESERVE_OS_MEMORY:
sprintf("%iMiB", ...). -/
def mimallocReserveStr (m : Int) : String := toString (mimallocReserveMiB m) ++ "MiB"

/-- Character class of isspace in the C locale. -/
def isSpaceC (c : Char) : Bool :=
  c = ' ' || c = '\t' || c = '\n' || c = '\x0b' || c = '\x0c' || c = '\r'

/-- Digit accumulation of atoi. Stops at the first non-digit. Overflow is
undefined behaviour in C and is not modelled; the claims only involve small
values. -/
def atoiDigits : List Char → Nat → Nat
  | [], acc => acc
  | c :: cs, acc => if c.isDigit then atoiDigits cs (acc * 10 + (c.toNat - 48)) else acc

/-- atoi: skip whitespace, read an optional sign, then a digit run; a string
with no leading digit run yields 0. -/
def atoi (s : String) : Int :=
  match s.toList.dropWhile isSpaceC with
  | [] => 0
  | c :: rest =>
      if c = '-' then -(atoiDigits rest 0 : Int)
      else if c = '+' then (atoiDigits rest 0 : Int)
      else (atoiDigits (c :: rest) 0 : Int)

/-- True when the string has a digit right after the optional whitespace and
sign, i.e. when atoi parses a nonempty number. -/
def hasLeadingNumber (s : String) : Bool :=
  match s.toList.dropWhile isSpaceC with
  | [] => false
  | c :: rest =>
      if c = '-' || c = '+' then
        match rest with
        | [] => false
        | d :: _ => d.isDigit
      else c.isDigit

/-- memorySize = memorySizeStr ? atoi(memorySizeStr) : 128
(src/llrt/src/main.c lines 421-422). -/
def memBudget (v : Option String) : Int :=
  match v with
  | none => 128
  | some s => atoi s

/-- appname: the suffix of argv[0] after the last '/', or all of argv[0]
when it has none (strrchr, src/llrt/src/main.c lines 304-305). -/
def afterLastSlash (s : String) : String :=
  String.mk ((s.toList.reverse.takeWhile (fun c => c ≠ '/')).reverse)

/-- The argv copy loop (src/llrt/src/main.c lines 396-413): the index i is a
uint8_t compared against the int argc, so it advances mod 256; fuel models
the otherwise unbounded iteration, and none models non-termination. -/
def argvLoop (argv : List String) (argc : Nat) :
    Nat → Nat → (Nat → Option String) → Option (Nat → Option String)
  | 0, i, acc => if i < argc then none else some acc
  | fuel + 1, i, acc =>
      if i < argc then
        let v := if i = 0 then "/" ++ afterLastSlash (argv.getD 0 "") else argv.getD i ""
        argvLoop argv argc fuel ((i + 1) % 256) (Function.update acc i (some v))
      else some acc

/-- new_argv as handed to fexecve: the loop above followed by
new_argv[argc] = NULL (src/llrt/src/main.c line 414). Slots are none until
written; the final slot is the NULL terminator. -/
def buildNewArgv (argv : List String) : Option (Nat → Option String) :=
  (argvLoop argv argv.length argv.length 0 (fun _ => none)).map
    (fun f => Function.update f argv.length none)

/-- The value the copy loop stores at slot j. -/
def newArgvVal (argv : List String) (j : Nat) : String :=
  if j = 0 then "/" ++ afterLastSlash (argv.getD 0 "") else argv.getD j ""

/-- The claim's staircase, written the way the spec states it: fraction 0.8
for budgets up to 512, 0.9 up to 1024, 0.92 up to 2048, 0.95 above, as a
percentage. Used to compare the source computation against the claim. -/
def claimTierPct (m : Int) : Nat :=
  if m ≤ 512 then 80 else if m ≤ 1024 then 90 else if m ≤ 2048 then 92 else 95

lemma memoryFactorPct_eq_claimTierPct (m : Int) : memoryFactorPct m = claimTierPct m := by
  simp only [memoryFactorPct, claimTierPct]
  split_ifs <;> omega

/-- C1: the claim states that a corrupted part aborts the whole operation on
both the synchronous and the parallel path. The code violates this on the
parallel path: pthread_join discards the per-thread status. At the failing
input below the decoder reports corruption on the block [6]; the
single-part payload carrying it aborts (none), yet the two-part payload
carrying the same corrupted block still produces a result, so main proceeds
to the handoff. -/
theorem c1_parallel_corruption_not_fatal :
    zstdBadW [6] = none ∧
    (decompress zstdBadW payloadSingleBad 14).isSome = false ∧
    (decompress zstdBadW payloadPar2 23).isSome = true := by
  refine ⟨rfl, rfl, rfl⟩

/-- C2: the MIMALLOC_RESERVE_OS_MEMORY value is floor(budget * f) MiB with f
the strict greater-than staircase 0.8 / 0.9 / 0.92 / 0.95, and the
boundary budgets 512, 1024 and 2048 take the lower tier. -/
theorem c2_reserve_tiering (m : Int) (h : 0 ≤ m) :
    mimallocReserveMiB m = Int.fdiv (m * (claimTierPct m : Int)) 100 ∧
    mimallocReserveStr m = toString (mimallocReserveMiB m) ++ "MiB" ∧
    memoryFactorPct 512 = 80 ∧ memoryFactorPct 1024 = 90 ∧ memoryFactorPct 2048 = 92 := by
  refine ⟨?_, rfl, by decide, by decide, by decide⟩
  rw [mimallocReserveMiB, memoryFactorPct_eq_claimTierPct,
    Int.fdiv_eq_tdiv (by positivity) (by norm_num)]

theorem c2_reserve_tiering_witness :
    (0 : Int) ≤ 600 ∧
      (mimallocReserveMiB 600 = Int.fdiv (600 * (claimTierPct 600 : Int)) 100 ∧
       mimallocReserveStr 600 = toString (mimallocReserveMiB 600) ++ "MiB" ∧
       memoryFactorPct 512 = 80 ∧ memoryFactorPct 1024 = 90 ∧ memoryFactorPct 2048 = 92) :=
  ⟨by decide, c2_reserve_tiering 600 (by decide)⟩

/-- C3: the claim places compressed_blocks at byte offset 1 + 8N for every
part_count N in 1..255. The source assigns 1 + 8N to a uint8_t, so for
N = 32 the computed offset is (1 + 8 * 32) mod 256 = 1, not 257; the
extra-data offset inherits the same truncation. -/
theorem c3_compressed_blocks_offset_truncated :
    (readData (List.replicate 300 0) 32).dataOffset = 1 ∧
    (1 : Nat) + 8 * 32 = 257 ∧
    (readData (List.replicate 300 0) 32).dataOffset ≠ 1 + 8 * 32 := by
  refine ⟨by decide, by decide, by decide⟩

lemma atoi_eq_zero_of_no_number (s : String) (h : hasLeadingNumber s = false) : atoi s = 0 := by
  unfold atoi
  unfold hasLeadingNumber at h
  cases hl : s.toList.dropWhile isSpaceC with
  | nil => rfl
  | cons c rest =>
      rw [hl] at h
      by_cases hc1 : c = '-'
      · subst hc1
        cases rest with
        | nil => simp [atoiDigits]
        | cons d ds =>
            simp at h
            simp [atoiDigits, h]
      · by_cases hc2 : c = '+'
        · subst hc2
          cases rest with
          | nil => simp [atoiDigits]
          | cons d ds =>
              simp at h
              simp [atoiDigits, h]
        · simp [hc1, hc2] at h
          simp [hc1, hc2, atoiDigits, h]

/-- C7 counterexample: the claim says an unparsable
AWS_LAMBDA_FUNCTION_MEMORY_SIZE falls back to 128; atoi("abc") is 0, so the
budget used is 0, not 128. -/
theorem c7_unparsable_budget_counterexample :
    memBudget (some "abc") = 0 ∧ memBudget (some "abc") ≠ 128 := by
  refine ⟨by decide, by decide⟩

/-- C7 amended: the budget defaults to 128 only when the variable is unset;
when it is set but holds no leading number, atoi yields 0 and the budget
used is 0. -/
theorem c7_budget_default_and_unparsable (s : String) (h : hasLeadingNumber s = false) :
    memBudget none = 128 ∧ memBudget (some s) = 0 := by
  refine ⟨rfl, ?_⟩
  simpa [memBudget] using atoi_eq_zero_of_no_number s h

theorem c7_budget_default_and_unparsable_witness :
    hasLeadingNumber "abc" = false ∧ (memBudget none = 128 ∧ memBudget (some "abc") = 0) :=
  ⟨by decide, c7_budget_default_and_unparsable "abc" (by decide)⟩

lemma getenvE_setenvE (e : Env) (key val k : String) (ow : Bool) :
    getenvE (setenvE e key val ow) k =
      if k = key then
        match getenvE e key with
        | none => some val
        | some w => if ow then some val else some w
      else getenvE e k := by
  induction e with
  | nil =>
      by_cases h : k = key
      · subst h
        simp [setenvE, getenvE]
      · simp [setenvE, getenvE, h, Ne.symm h]
  | cons p e ih =>
      obtain ⟨k2, w⟩ := p
      by_cases h2 : k2 = key
      · subst h2
        by_cases hk : k = k2
        · subst hk
          cases ow <;> simp [setenvE, getenvE]
        · cases ow <;> simp [setenvE, getenvE, hk, Ne.symm hk]
      · by_cases hk2 : k2 = k
        · subst hk2
          have hne : ¬ k2 = key := h2
          simp [setenvE, getenvE, h2, hne]
        · simp [setenvE, getenvE, h2, hk2, ih]

lemma getenvE_setenvE_ne (e : Env) (key val k : String) (ow : Bool) (hk : k ≠ key) :
    getenvE (setenvE e key val ow) k = getenvE e k := by
  rw [getenvE_setenvE, if_neg hk]

lemma getenvE_setenvE_false_preserves (e : Env) (key val k v : String)
    (h : getenvE e k = some v) : getenvE (setenvE e key val false) k = some v := by
  rw [getenvE_setenvE]
  by_cases hk : k = key
  · subst hk
    simp [h]
  · rw [if_neg hk, h]

lemma getenvE_setenvE_false_absent (e : Env) (key val : String)
    (h : getenvE e key = none) : getenvE (setenvE e key val false) key = some val := by
  rw [getenvE_setenvE, if_pos rfl, h]

lemma getenvE_setenvE_true_self (e : Env) (key val : String) :
    getenvE (setenvE e key val true) key = some val := by
  rw [getenvE_setenvE, if_pos rfl]
  cases h : getenvE e key <;> simp

/-- C8: the six configurator variables are published with overwrite = false:
a pre-existing value of any of them survives publishEnv unchanged, and each
of them is written exactly when it was absent. -/
theorem c8_publish_non_overwriting (env : Env) (u st rs fd bo bs : String) :
    (∀ k, k ∈ publishedVars → ∀ v, getenvE env k = some v →
        getenvE (publishEnv env u st rs fd bo bs) k = some v) ∧
    (getenvE env "_START_TIME" = none →
        getenvE (publishEnv env u st rs fd bo bs) "_START_TIME" = some st) ∧
    (getenvE env "MIMALLOC_RESERVE_OS_MEMORY" = none →
        getenvE (publishEnv env u st rs fd bo bs) "MIMALLOC_RESERVE_OS_MEMORY" = some rs) ∧
    (getenvE env "MIMALLOC_LIMIT_OS_ALLOC" = none →
        getenvE (publishEnv env u st rs fd bo bs) "MIMALLOC_LIMIT_OS_ALLOC" = some "1") ∧
    (getenvE env "LLRT_MEM_FD" = none →
        getenvE (publishEnv env u st rs fd bo bs) "LLRT_MEM_FD" = some fd) ∧
    (getenvE env "LLRT_BYTECODE_OFFSET" = none →
        getenvE (publishEnv env u st rs fd bo bs) "LLRT_BYTECODE_OFFSET" = some bo) ∧
    (getenvE env "LLRT_BYTECODE_SIZE" = none →
        getenvE (publishEnv env u st rs fd bo bs) "LLRT_BYTECODE_SIZE" = some bs) := by
  refine ⟨?_, ?_, ?_, ?_, ?_, ?_, ?_⟩
  · intro k hk v hv
    fin_cases hk <;>
      (simp only [publishEnv]
       apply getenvE_setenvE_false_preserves
       apply getenvE_setenvE_false_preserves
       apply getenvE_setenvE_false_preserves
       apply getenvE_setenvE_false_preserves
       apply getenvE_setenvE_false_preserves
       apply getenvE_setenvE_false_preserves
       rw [getenvE_setenvE_ne _ _ _ _ _ (by decide)]
       exact hv)
  · intro h
    simp only [publishEnv]
    apply getenvE_setenvE_false_preserves
    apply getenvE_setenvE_false_preserves
    apply getenvE_setenvE_false_preserves
    apply getenvE_setenvE_false_preserves
    apply getenvE_setenvE_false_preserves
    apply getenvE_setenvE_false_absent
    rw [getenvE_setenvE_ne _ _ _ _ _ (by decide)]
    exact h
  · intro h
    simp only [publishEnv]
    apply getenvE_setenvE_false_preserves
    apply getenvE_setenvE_false_preserves
    apply getenvE_setenvE_false_preserves
    apply getenvE_setenvE_false_preserves
    apply getenvE_setenvE_false_absent
    rw [getenvE_setenvE_ne _ _ _ _ _ (by decide)]
    rw [getenvE_setenvE_ne _ _ _ _ _ (by decide)]
    exact h
  · intro h
    simp only [publishEnv]
    apply getenvE_setenvE_false_preserves
    apply getenvE_setenvE_false_preserves
    apply getenvE_setenvE_false_preserves
    apply getenvE_setenvE_false_absent
    rw [getenvE_setenvE_ne _ _ _ _ _ (by decide)]
    rw [getenvE_setenvE_ne _ _ _ _ _ (by decide)]
    rw [getenvE_setenvE_ne _ _ _ _ _ (by decide)]
    exact h
  · intro h
    simp only [publishEnv]
    apply getenvE_setenvE_false_preserves
    apply getenvE_setenvE_false_preserves
    apply getenvE_setenvE_false_absent
    rw [getenvE_setenvE_ne _ _ _ _ _ (by decide)]
    rw [getenvE_setenvE_ne _ _ _ _ _ (by decide)]
    rw [getenvE_setenvE_ne _ _ _ _ _ (by decide)]
    rw [getenvE_setenvE_ne _ _ _ _ _ (by decide)]
    exact h
  · intro h
    simp only [publishEnv]
    apply getenvE_setenvE_false_preserves
    apply getenvE_setenvE_false_absent
    rw [getenvE_setenvE_ne _ _ _ _ _ (by decide)]
    rw [getenvE_setenvE_ne _ _ _ _ _ (by decide)]
    rw [getenvE_setenvE_ne _ _ _ _ _ (by decide)]
    rw [getenvE_setenvE_ne _ _ _ _ _ (by decide)]
    rw [getenvE_setenvE_ne _ _ _ _ _ (by decide)]
    exact h
  · intro h
    simp only [publishEnv]
    apply getenvE_setenvE_false_absent
    rw [getenvE_setenvE_ne _ _ _ _ _ (by decide)]
    rw [getenvE_setenvE_ne _ _ _ _ _ (by decide)]
    rw [getenvE_setenvE_ne _ _ _ _ _ (by decide)]
    rw [getenvE_setenvE_ne _ _ _ _ _ (by decide)]
    rw [getenvE_setenvE_ne _ _ _ _ _ (by decide)]
    rw [getenvE_setenvE_ne _ _ _ _ _ (by decide)]
    exact h

theorem c8_publish_non_overwriting_witness :
    getenvE (publishEnv [("LLRT_MEM_FD", "7")] "/app" "t0" "102MiB" "3" "12" "5")
        "LLRT_MEM_FD" = some "7" ∧
    getenvE (publishEnv [("LLRT_MEM_FD", "7")] "/app" "t0" "102MiB" "3" "12" "5")
        "_START_TIME" = some "t0" :=
  ⟨(c8_publish_non_overwriting [("LLRT_MEM_FD", "7")] "/app" "t0" "102MiB" "3" "12" "5").1
      "LLRT_MEM_FD" (by decide) "7" (by decide),
   (c8_publish_non_overwriting [("LLRT_MEM_FD", "7")] "/app" "t0" "102MiB" "3" "12" "5").2.1
      (by decide)⟩

/-- C10: the underscore variable is always set to the rewritten argv[0],
overwriting any previous value, and it is the only variable published with
overwrite semantics: every other published variable keeps a pre-existing
value. -/
theorem c10_underscore_overwrite_only (env : Env) (u st rs fd bo bs : String) :
    getenvE (publishEnv env u st rs fd bo bs) "_" = some u ∧
    (∀ k, k ∈ publishedVars → ∀ v, getenvE env k = some v →
        getenvE (publishEnv env u st rs fd bo bs) k = some v) := by
  constructor
  · simp only [publishEnv]
    rw [getenvE_setenvE_ne _ _ _ _ _ (by decide)]
    rw [getenvE_setenvE_ne _ _ _ _ _ (by decide)]
    rw [getenvE_setenvE_ne _ _ _ _ _ (by decide)]
    rw [getenvE_setenvE_ne _ _ _ _ _ (by decide)]
    rw [getenvE_setenvE_ne _ _ _ _ _ (by decide)]
    rw [getenvE_setenvE_ne _ _ _ _ _ (by decide)]
    exact getenvE_setenvE_true_self _ _ _
  · intro k hk v hv
    fin_cases hk <;>
      (simp only [publishEnv]
       apply getenvE_setenvE_false_preserves
       apply getenvE_setenvE_false_preserves
       apply getenvE_setenvE_false_preserves
       apply getenvE_setenvE_false_preserves
       apply getenvE_setenvE_false_preserves
       apply getenvE_setenvE_false_preserves
       rw [getenvE_setenvE_ne _ _ _ _ _ (by decide)]
       exact hv)

theorem c10_underscore_overwrite_only_witness :
    getenvE (publishEnv [("_", "old"), ("_START_TIME", "t9")] "/app" "t0" "102MiB" "3" "12" "5")
        "_" = some "/app" ∧
    getenvE (publishEnv [("_", "old"), ("_START_TIME", "t9")] "/app" "t0" "102MiB" "3" "12" "5")
        "_START_TIME" = some "t9" :=
  ⟨(c10_underscore_overwrite_only [("_", "old"), ("_START_TIME", "t9")]
      "/app" "t0" "102MiB" "3" "12" "5").1,
   (c10_underscore_overwrite_only [("_", "old"), ("_START_TIME", "t9")]
      "/app" "t0" "102MiB" "3" "12" "5").2
      "_START_TIME" (by decide) "t9" (by decide)⟩

lemma argvLoop_spec (argv : List String) (argc : Nat) (h255 : argc ≤ 255) :
    ∀ fuel i acc, i + fuel = argc →
      argvLoop argv argc fuel i acc =
        some (fun j => if i ≤ j ∧ j < argc then some (newArgvVal argv j) else acc j) := by
  intro fuel
  induction fuel with
  | zero =>
      intro i acc hi
      have hi' : i = argc := by omega
      subst hi'
      simp only [argvLoop]
      rw [if_neg (lt_irrefl _)]
      congr 1
      funext j
      have hj : ¬(i ≤ j ∧ j < i) := by omega
      rw [if_neg hj]
  | succ fuel ih =>
      intro i acc hi
      have hlt : i < argc := by omega
      have hmod : (i + 1) % 256 = i + 1 := Nat.mod_eq_of_lt (by omega)
      simp only [argvLoop, if_pos hlt, hmod]
      rw [ih (i + 1) _ (by omega)]
      congr 1
      funext j
      by_cases hj : j = i
      · subst hj
        have hc1 : ¬(j + 1 ≤ j ∧ j < argc) := by omega
        have hc2 : j ≤ j ∧ j < argc := ⟨le_refl _, hlt⟩
        rw [if_neg hc1, if_pos hc2, Function.update_same]
        rfl
      · rw [Function.update_noteq hj]
        by_cases hj2 : i + 1 ≤ j ∧ j < argc
        · have hc3 : i ≤ j ∧ j < argc := ⟨by omega, hj2.2⟩
          rw [if_pos hj2, if_pos hc3]
        · have hc4 : ¬(i ≤ j ∧ j < argc) := by
            intro hc
            exact hj2 ⟨by omega, hc.2⟩
          rw [if_neg hj2, if_neg hc4]

/-- C9: for 1 <= argc <= 255 the loop terminates and new_argv has argv[0]
rewritten to "/" ++ basename(argv[0]), the remaining arguments copied byte
for byte, and a NULL terminator at index argc. The index is a uint8_t, so
the loop body advances it mod 256 and the guarantee needs argc <= 255. -/
theorem c9_new_argv_layout (argv : List String)
    (h1 : 1 ≤ argv.length) (h2 : argv.length ≤ 255) :
    ∃ f, buildNewArgv argv = some f ∧
      f 0 = some ("/" ++ afterLastSlash (argv.getD 0 "")) ∧
      (∀ i, 1 ≤ i → i < argv.length → f i = some (argv.getD i "")) ∧
      f argv.length = none := by
  unfold buildNewArgv
  rw [argvLoop_spec argv argv.length h2 argv.length 0 _ (by omega)]
  simp only [Option.map_some']
  refine ⟨_, rfl, ?_, ?_, ?_⟩
  · rw [Function.update_noteq (by omega : (0 : Nat) ≠ argv.length)]
    have hc : (0 : Nat) ≤ 0 ∧ 0 < argv.length := ⟨le_refl _, by omega⟩
    rw [if_pos hc]
    simp [newArgvVal]
  · intro i hi1 hi2
    rw [Function.update_noteq (by omega : i ≠ argv.length)]
    have hc : 0 ≤ i ∧ i < argv.length := ⟨by omega, hi2⟩
    rw [if_pos hc]
    simp only [newArgvVal]
    rw [if_neg (by omega : ¬ i = 0)]
  · exact Function.update_same _ _ _

theorem c9_new_argv_layout_witness :
    1 ≤ (["/usr/bin/app", "-x"] : List String).length ∧
    (["/usr/bin/app", "-x"] : List String).length ≤ 255 ∧
    (∃ f, buildNewArgv ["/usr/bin/app", "-x"] = some f ∧
      f 0 = some ("/" ++ afterLastSlash ((["/usr/bin/app", "-x"] : List String).getD 0 "")) ∧
      (∀ i, 1 ≤ i → i < (["/usr/bin/app", "-x"] : List String).length →
        f i = some ((["/usr/bin/app", "-x"] : List String).getD i "")) ∧
      f (["/usr/bin/app", "-x"] : List String).length = none) :=
  ⟨by decide, by decide, c9_new_argv_layout ["/usr/bin/app", "-x"] (by decide) (by decide)⟩

lemma getB_nil (k : Nat) : getB [] k = 0 := rfl

lemma getB_append_left (l1 l2 : List Nat) (k : Nat) (h : k < l1.length) :
    getB (l1 ++ l2) k = getB l1 k := by
  induction l1 generalizing k with
  | nil => simp at h
  | cons b l ih =>
      cases k with
      | zero => rfl
      | succ k => exact ih k (by simpa using h)

lemma getB_append_right (l1 l2 : List Nat) (k : Nat) (h : l1.length ≤ k) :
    getB (l1 ++ l2) k = getB l2 (k - l1.length) := by
  induction l1 generalizing k with
  | nil => simp [getB]
  | cons b l ih =>
      cases k with
      | zero => simp at h
      | succ k => simpa using ih k (by simpa using h)

lemma getB_take (l : List Nat) (n k : Nat) :
    getB (l.take n) k = if k < n then getB l k else 0 := by
  induction l generalizing n k with
  | nil => simp [getB]
  | cons b l ih =>
      cases n with
      | zero => simp [getB]
      | succ n =>
          cases k with
          | zero => simp [getB]
          | succ k =>
              simp only [List.take, getB, ih]
              by_cases hk : k < n
              · rw [if_pos hk, if_pos (by omega)]
              · rw [if_neg hk, if_neg (by omega)]

lemma getB_drop (l : List Nat) (s k : Nat) : getB (l.drop s) k = getB l (s + k) := by
  induction l generalizing s with
  | nil => simp [getB]
  | cons b l ih =>
      cases s with
      | zero => simp
      | succ s =>
          simp only [List.drop, ih]
          have hs : s + 1 + k = (s + k) + 1 := by omega
          rw [hs]
          rfl

lemma getB_eq_getD (l : List Nat) (k : Nat) : getB l k = l.getD k 0 := by
  induction l generalizing k with
  | nil => simp [getB]
  | cons b l ih =>
      cases k with
      | zero => rfl
      | succ k => simpa [getB] using ih k

lemma sumArrayU32_from (l : List Nat) :
    ∀ s, s < U32 → l.foldl (fun t x => (t + x) % U32) s = (s + l.sum) % U32 := by
  induction l with
  | nil =>
      intro s hs
      simp [Nat.mod_eq_of_lt hs]
  | cons x l ih =>
      intro s hs
      simp only [List.foldl, List.sum_cons]
      rw [ih ((s + x) % U32) (Nat.mod_lt _ (by norm_num [U32]))]
      rw [Nat.mod_add_mod]
      congr 1
      omega

lemma sumArrayU32_eq (l : List Nat) : sumArrayU32 l = l.sum % U32 := by
  unfold sumArrayU32
  rw [sumArrayU32_from l 0 (by norm_num [U32])]
  simp

lemma sumArrayU32_eq_of_lt (l : List Nat) (h : l.sum < U32) : sumArrayU32 l = l.sum := by
  rw [sumArrayU32_eq, Nat.mod_eq_of_lt h]

lemma sum_take_succ_getB (l : List Nat) (k : Nat) (h : k < l.length) :
    (l.take (k + 1)).sum = (l.take k).sum + getB l k := by
  induction l generalizing k with
  | nil => simp at h
  | cons b l ih =>
      cases k with
      | zero => simp [getB]
      | succ k =>
          simp only [List.take, List.sum_cons, getB]
          rw [ih k (by simpa using h)]
          omega

lemma sum_take_le (l : List Nat) (k : Nat) : (l.take k).sum ≤ l.sum := by
  induction l generalizing k with
  | nil => simp
  | cons b l ih =>
      cases k with
      | zero => simp
      | succ k =>
          simp only [List.take, List.sum_cons]
          exact Nat.add_le_add_left (ih k) b

lemma sum_take_mono (l : List Nat) (i j : Nat) (h : i ≤ j) :
    (l.take i).sum ≤ (l.take j).sum := by
  induction l generalizing i j with
  | nil => simp
  | cons b l ih =>
      cases i with
      | zero => simp
      | succ i =>
          cases j with
          | zero => omega
          | succ j =>
              simp only [List.take, List.sum_cons]
              exact Nat.add_le_add_left (ih i j (by omega)) b

lemma zip_getB (l1 l2 : List Nat) (k : Nat) (h1 : k < l1.length) (h2 : k < l2.length) :
    (l1.zip l2).getD k (0, 0) = (getB l1 k, getB l2 k) := by
  induction l1 generalizing l2 k with
  | nil => simp at h1
  | cons a l1 ih =>
      cases l2 with
      | nil => simp at h2
      | cons b l2 =>
          cases k with
          | zero => rfl
          | succ k =>
              simp only [List.zip_cons_cons, List.getD_cons_succ, getB]
              exact ih l2 k (by simpa using h1) (by simpa using h2)

lemma readData_inputSizes_length (d : List Nat) (parts : Nat) :
    (readData d parts).inputSizes.length = parts := by
  simp [readData]

lemma readData_outputSizes_length (d : List Nat) (parts : Nat) :
    (readData d parts).outputSizes.length = parts := by
  simp [readData]

lemma tasksOK_cons_iff (zstd : List Nat → Option (List Nat)) (payload : List Nat)
    (a : ThreadArgs) (args : List ThreadArgs) (o : List Nat) (os : List (List Nat)) :
    tasksOK zstd payload (a :: args) (o :: os) = true ↔
      zstd ((payload.drop a.inputOff).take a.srcSize) = some o ∧
      o.length = a.dstSize ∧ tasksOK zstd payload args os = true := by
  simp [tasksOK, Bool.and_eq_true, decide_eq_true_eq, and_assoc]

lemma tasksOK_nil_right (zstd : List Nat → Option (List Nat)) (payload : List Nat)
    (args : List ThreadArgs) (h : tasksOK zstd payload args [] = true) : args = [] := by
  cases args with
  | nil => rfl
  | cons a args => simp [tasksOK] at h

lemma tasksOK_cons_right (zstd : List Nat → Option (List Nat)) (payload : List Nat)
    (a : ThreadArgs) (args : List ThreadArgs) (os : List (List Nat))
    (h : tasksOK zstd payload (a :: args) os = true) :
    ∃ o os', os = o :: os' := by
  cases os with
  | nil => simp [tasksOK] at h
  | cons o os' => exact ⟨o, os', rfl⟩

lemma zstdRun_of_ok (zstd : List Nat → Option (List Nat)) (s : List Nat) (d : Nat)
    (out : List Nat) (h : zstd s = some out) (hlen : out.length ≤ d) :
    zstdRun zstd s d = some out := by
  simp [zstdRun, h, hlen]

lemma zstdRun_length (zstd : List Nat → Option (List Nat)) (s : List Nat) (d : Nat)
    (out : List Nat) (h : zstdRun zstd s d = some out) : out.length ≤ d := by
  unfold zstdRun at h
  cases hz : zstd s with
  | none => rw [hz] at h; exact absurd h (by simp)
  | some o =>
      rw [hz] at h
      dsimp only at h
      by_cases hl : o.length ≤ d
      · rw [if_pos hl] at h
        cases h
        exact hl
      · rw [if_neg hl] at h
        exact absurd h (by simp)

lemma writeBytes_in (buf : Nat → Nat) (off : Nat) (bytes : List Nat) (a : Nat)
    (h1 : off ≤ a) (h2 : a < off + bytes.length) :
    writeBytes buf off bytes a = getB bytes (a - off) := by
  simp [writeBytes, h1, h2]

lemma writeBytes_out (buf : Nat → Nat) (off : Nat) (bytes : List Nat) (a : Nat)
    (h : ¬(off ≤ a ∧ a < off + bytes.length)) :
    writeBytes buf off bytes a = buf a := by
  simp only [writeBytes, if_neg h]

lemma extraBytes_length (payload : List Nat) (src e : Nat) (h : src + e ≤ payload.length) :
    ((payload.drop src).take e).length = e := by
  simp only [List.length_take, List.length_drop]
  omega

lemma decompressPartial_fail (zstd : List Nat → Option (List Nat)) (payload : List Nat)
    (buf : Nat → Nat) (arg : ThreadArgs)
    (h : zstdRun zstd ((payload.drop arg.inputOff).take arg.srcSize) arg.dstSize = none) :
    decompressPartial zstd payload buf arg = (buf, false) := by
  unfold decompressPartial
  rw [h]

lemma decompressPartial_frame (zstd : List Nat → Option (List Nat)) (payload : List Nat)
    (buf : Nat → Nat) (arg : ThreadArgs) (a : Nat)
    (h1 : ¬(arg.outputOff ≤ a ∧ a < arg.outputOff + arg.dstSize))
    (h2 : ¬(arg.extraDstOff ≤ a ∧ a < arg.extraDstOff + arg.extraSize)) :
    (decompressPartial zstd payload buf arg).1 a = buf a := by
  unfold decompressPartial
  cases hz : zstdRun zstd ((payload.drop arg.inputOff).take arg.srcSize) arg.dstSize with
  | none => rfl
  | some out =>
      have hlen : out.length ≤ arg.dstSize := zstdRun_length _ _ _ _ hz
      have hextlen : ((payload.drop arg.extraSrcOff).take arg.extraSize).length ≤ arg.extraSize := by
        simp only [List.length_take, List.length_drop]
        omega
      simp only
      by_cases hid : arg.id = 0
      · rw [if_pos hid]
        rw [writeBytes_out _ _ _ _ (by intro hc; exact h2 ⟨hc.1, by omega⟩)]
        rw [writeBytes_out _ _ _ _ (by intro hc; exact h1 ⟨hc.1, by omega⟩)]
      · rw [if_neg hid]
        rw [writeBytes_out _ _ _ _ (by intro hc; exact h1 ⟨hc.1, by omega⟩)]

lemma decompressPartial_out_write (zstd : List Nat → Option (List Nat)) (payload : List Nat)
    (buf : Nat → Nat) (arg : ThreadArgs) (out : List Nat) (a : Nat)
    (h : zstdRun zstd ((payload.drop arg.inputOff).take arg.srcSize) arg.dstSize = some out)
    (hid : arg.id = 0 → arg.outputOff + arg.dstSize ≤ arg.extraDstOff)
    (h1 : arg.outputOff ≤ a) (h2 : a < arg.outputOff + out.length) :
    (decompressPartial zstd payload buf arg).1 a = getB out (a - arg.outputOff) := by
  have hlen : out.length ≤ arg.dstSize := zstdRun_length _ _ _ _ h
  unfold decompressPartial
  rw [h]
  simp only
  by_cases hid0 : arg.id = 0
  · rw [if_pos hid0]
    rw [writeBytes_out _ _ _ _ (by intro hc; have := hid hid0; omega)]
    exact writeBytes_in _ _ _ _ h1 h2
  · rw [if_neg hid0]
    exact writeBytes_in _ _ _ _ h1 h2

lemma decompressPartial_extra_write (zstd : List Nat → Option (List Nat)) (payload : List Nat)
    (buf : Nat → Nat) (arg : ThreadArgs) (out : List Nat) (a : Nat)
    (h : zstdRun zstd ((payload.drop arg.inputOff).take arg.srcSize) arg.dstSize = some out)
    (hid : arg.id = 0)
    (h1 : arg.extraDstOff ≤ a) (h2 : a < arg.extraDstOff + arg.extraSize)
    (hpl : arg.extraSrcOff + arg.extraSize ≤ payload.length) :
    (decompressPartial zstd payload buf arg).1 a =
      getB payload (arg.extraSrcOff + (a - arg.extraDstOff)) := by
  unfold decompressPartial
  rw [h]
  simp only
  rw [if_pos hid]
  have hlen : ((payload.drop arg.extraSrcOff).take arg.extraSize).length = arg.extraSize :=
    extraBytes_length _ _ _ hpl
  rw [writeBytes_in _ _ _ _ h1 (by omega)]
  rw [getB_take]
  rw [if_pos (by omega)]
  rw [getB_drop]

lemma decompressPartial_ok (zstd : List Nat → Option (List Nat)) (payload : List Nat)
    (buf : Nat → Nat) (arg : ThreadArgs) (out : List Nat)
    (h : zstdRun zstd ((payload.drop arg.inputOff).take arg.srcSize) arg.dstSize = some out) :
    (decompressPartial zstd payload buf arg).2 = true := by
  unfold decompressPartial
  rw [h]

lemma mkArgsAux_length (D X E Ud : Nat) :
    ∀ (ps : List (Nat × Nat)) (i0 in0 out0 : Nat),
      (mkArgsAux D X E Ud ps i0 in0 out0).length = ps.length := by
  intro ps
  induction ps with
  | nil => intro i0 in0 out0; rfl
  | cons p rest ih =>
      intro i0 in0 out0
      obtain ⟨a, b⟩ := p
      simp only [mkArgsAux, List.length_cons, ih]

lemma mkArgsAux_getD (D X E Ud : Nat) :
    ∀ (ps : List (Nat × Nat)) (k i0 in0 out0 : Nat), k < ps.length →
      in0 + (ps.map Prod.fst).sum < U32 → out0 + (ps.map Prod.snd).sum < U32 →
      (mkArgsAux D X E Ud ps i0 in0 out0).getD k argDefault =
        { srcSize := (ps.getD k (0, 0)).1, dstSize := (ps.getD k (0, 0)).2, id := i0 + k,
          extraSize := if i0 + k = 0 then E else 0,
          inputOff := D + in0 + ((ps.map Prod.fst).take k).sum,
          outputOff := out0 + ((ps.map Prod.snd).take k).sum,
          extraSrcOff := X, extraDstOff := Ud } := by
  intro ps
  induction ps with
  | nil => intro k i0 in0 out0 hk; simp at hk
  | cons p rest ih =>
      intro k i0 in0 out0 hk hin hout
      obtain ⟨a, b⟩ := p
      simp only [List.map_cons, List.sum_cons] at hin hout
      cases k with
      | zero =>
          simp [mkArgsAux, mkArg]
      | succ k =>
          simp only [mkArgsAux, List.getD_cons_succ]
          have hmodin : (in0 + a) % U32 = in0 + a := Nat.mod_eq_of_lt (by omega)
          have hmodout : (out0 + b) % U32 = out0 + b := Nat.mod_eq_of_lt (by omega)
          rw [hmodin, hmodout]
          rw [ih k (i0 + 1) (in0 + a) (out0 + b) (by simpa using hk) (by omega) (by omega)]
          simp only [List.map_cons, List.take_succ_cons, List.sum_cons]
          congr 1
          · omega
          · by_cases h0 : i0 + 1 + k = 0
            · omega
            · rw [if_neg h0, if_neg (by omega)]
          · omega
          · omega

@[simp] lemma mkArg_srcSize (D X E Ud inSz outSz i inOff outOff : Nat) :
    (mkArg D X E Ud inSz outSz i inOff outOff).srcSize = inSz := rfl

@[simp] lemma mkArg_dstSize (D X E Ud inSz outSz i inOff outOff : Nat) :
    (mkArg D X E Ud inSz outSz i inOff outOff).dstSize = outSz := rfl

@[simp] lemma mkArg_inputOff (D X E Ud inSz outSz i inOff outOff : Nat) :
    (mkArg D X E Ud inSz outSz i inOff outOff).inputOff = D + inOff := rfl

@[simp] lemma mkArg_outputOff (D X E Ud inSz outSz i inOff outOff : Nat) :
    (mkArg D X E Ud inSz outSz i inOff outOff).outputOff = outOff := rfl

lemma dp_mkArg_out (zstd : List Nat → Option (List Nat)) (payload : List Nat) (buf : Nat → Nat)
    (D X E Ud inSz outSz i0 in0 out0 : Nat) (o : List Nat) (a : Nat)
    (hz : zstd ((payload.drop (D + in0)).take inSz) = some o)
    (hlen : o.length ≤ outSz)
    (hle : i0 = 0 → out0 + outSz ≤ Ud)
    (h1 : out0 ≤ a) (h2 : a < out0 + o.length) :
    (decompressPartial zstd payload buf (mkArg D X E Ud inSz outSz i0 in0 out0)).1 a =
      getB o (a - out0) := by
  apply decompressPartial_out_write
  · exact zstdRun_of_ok _ _ _ _ hz hlen
  · intro h0
    simp only [mkArg] at h0 ⊢
    exact hle h0
  · exact h1
  · exact h2

lemma dp_mkArg_extra (zstd : List Nat → Option (List Nat)) (payload : List Nat) (buf : Nat → Nat)
    (D X E Ud inSz outSz in0 out0 : Nat) (o : List Nat) (a : Nat)
    (hz : zstd ((payload.drop (D + in0)).take inSz) = some o)
    (hlen : o.length ≤ outSz)
    (h1 : Ud ≤ a) (h2 : a < Ud + E)
    (hpl : X + E ≤ payload.length) :
    (decompressPartial zstd payload buf (mkArg D X E Ud inSz outSz 0 in0 out0)).1 a =
      getB payload (X + (a - Ud)) := by
  have h := decompressPartial_extra_write zstd payload buf
    (mkArg D X E Ud inSz outSz 0 in0 out0) o a
    (zstdRun_of_ok _ _ _ _ hz hlen) rfl h1 (by simpa [mkArg] using h2) (by simpa [mkArg] using hpl)
  simpa [mkArg] using h

lemma dp_mkArg_frame_pos (zstd : List Nat → Option (List Nat)) (payload : List Nat)
    (buf : Nat → Nat) (D X E Ud inSz outSz i0 in0 out0 : Nat) (a : Nat)
    (hi : i0 ≠ 0)
    (h1 : ¬(out0 ≤ a ∧ a < out0 + outSz)) :
    (decompressPartial zstd payload buf (mkArg D X E Ud inSz outSz i0 in0 out0)).1 a = buf a := by
  apply decompressPartial_frame
  · exact h1
  · simp only [mkArg, if_neg hi]
    omega

lemma dp_mkArg_frame_zero (zstd : List Nat → Option (List Nat)) (payload : List Nat)
    (buf : Nat → Nat) (D X E Ud inSz outSz in0 out0 : Nat) (a : Nat)
    (h1 : ¬(out0 ≤ a ∧ a < out0 + outSz))
    (h2 : ¬(Ud ≤ a ∧ a < Ud + E)) :
    (decompressPartial zstd payload buf (mkArg D X E Ud inSz outSz 0 in0 out0)).1 a = buf a := by
  apply decompressPartial_frame
  · exact h1
  · simpa [mkArg] using h2

lemma mkArgsAux_map_dstSize (D X E Ud : Nat) :
    ∀ (ps : List (Nat × Nat)) (i0 in0 out0 : Nat),
      (mkArgsAux D X E Ud ps i0 in0 out0).map (fun x => x.dstSize) = ps.map Prod.snd := by
  intro ps
  induction ps with
  | nil => intro i0 in0 out0; rfl
  | cons p rest ih =>
      intro i0 in0 out0
      obtain ⟨a, b⟩ := p
      simp only [mkArgsAux, List.map_cons, mkArg_dstSize, ih]

lemma tasksOK_flat_length (zstd : List Nat → Option (List Nat)) (payload : List Nat) :
    ∀ (args : List ThreadArgs) (os : List (List Nat)),
      tasksOK zstd payload args os = true →
      (flat os).length = (args.map (fun x => x.dstSize)).sum := by
  intro args
  induction args with
  | nil =>
      intro os h
      cases os with
      | nil => rfl
      | cons o os' => simp [tasksOK] at h
  | cons a args ih =>
      intro os h
      obtain ⟨o, os', rfl⟩ := tasksOK_cons_right _ _ _ _ _ h
      rw [tasksOK_cons_iff] at h
      obtain ⟨hz, hlen, hrest⟩ := h
      simp only [flat, List.length_append, List.map_cons, List.sum_cons, hlen, ih os' hrest]

lemma runTasksPar_char (zstd : List Nat → Option (List Nat)) (payload : List Nat)
    (D X E Ud : Nat) :
    ∀ (ps : List (Nat × Nat)) (os : List (List Nat)) (i0 in0 out0 : Nat) (buf : Nat → Nat),
      tasksOK zstd payload (mkArgsAux D X E Ud ps i0 in0 out0) os = true →
      out0 + (ps.map Prod.snd).sum ≤ Ud →
      Ud + E < U32 →
      1 ≤ i0 →
      ∀ a, runTasksPar zstd payload buf (mkArgsAux D X E Ud ps i0 in0 out0) a =
        if out0 ≤ a ∧ a < out0 + (ps.map Prod.snd).sum then getB (flat os) (a - out0)
        else buf a := by
  intro ps
  induction ps with
  | nil =>
      intro os i0 in0 out0 buf hok hb hU hi a
      have hos : os = [] := by
        cases os with
        | nil => rfl
        | cons o os' => simp [mkArgsAux, tasksOK] at hok
      subst hos
      simp only [mkArgsAux, runTasksPar, List.map_nil, List.sum_nil, flat]
      rw [if_neg (by omega)]
  | cons p rest ih =>
      intro os i0 in0 out0 buf hok hb hU hi a
      obtain ⟨inSz, outSz⟩ := p
      simp only [mkArgsAux] at hok ⊢
      obtain ⟨o, os', rfl⟩ := tasksOK_cons_right _ _ _ _ _ hok
      rw [tasksOK_cons_iff] at hok
      obtain ⟨hz, hlen, hrest⟩ := hok
      simp only [mkArg_inputOff, mkArg_srcSize, mkArg_dstSize] at hz hlen
      simp only [List.map_cons, List.sum_cons] at hb ⊢
      have hUlt : Ud < U32 := by omega
      have hmodout : (out0 + outSz) % U32 = out0 + outSz := Nat.mod_eq_of_lt (by omega)
      rw [hmodout] at hrest
      simp only [runTasksPar]
      rw [hmodout]
      rw [ih os' (i0 + 1) ((in0 + inSz) % U32) (out0 + outSz) _ hrest (by omega) hU (by omega) a]
      simp only [flat]
      by_cases hA : out0 ≤ a ∧ a < out0 + outSz
      · rw [if_neg (by omega)]
        have ho : a < out0 + o.length := by omega
        rw [dp_mkArg_out zstd payload buf D X E Ud inSz outSz i0 in0 out0 o a hz
          (by omega) (fun h0 => absurd h0 (by omega)) hA.1 ho]
        rw [if_pos (by omega)]
        rw [getB_append_left _ _ _ (by omega)]
      · by_cases hB : out0 + outSz ≤ a ∧ a < out0 + outSz + (rest.map Prod.snd).sum
        · rw [if_pos hB, if_pos (by omega)]
          rw [getB_append_right _ _ _ (by omega)]
          congr 1
          omega
        · rw [if_neg hB, if_neg (by omega)]
          exact dp_mkArg_frame_pos zstd payload buf D X E Ud inSz outSz i0 in0 out0 a
            (by omega) hA

lemma runTasksPar_char0 (zstd : List Nat → Option (List Nat)) (payload : List Nat)
    (D X E Ud : Nat) (ps : List (Nat × Nat)) (os : List (List Nat)) (in0 : Nat)
    (buf : Nat → Nat)
    (hok : tasksOK zstd payload (mkArgsAux D X E Ud ps 0 in0 0) os = true)
    (hUdge : (ps.map Prod.snd).sum ≤ Ud)
    (hU32 : Ud + E < U32)
    (hne : ps ≠ [])
    (hpl : X + E ≤ payload.length) :
    ∀ a, runTasksPar zstd payload buf (mkArgsAux D X E Ud ps 0 in0 0) a =
      if a < (ps.map Prod.snd).sum then getB (flat os) a
      else if Ud ≤ a ∧ a < Ud + E then getB payload (X + (a - Ud)) else buf a := by
  cases ps with
  | nil => exact absurd rfl hne
  | cons p rest =>
      intro a
      obtain ⟨inSz, outSz⟩ := p
      simp only [mkArgsAux] at hok ⊢
      obtain ⟨o, os', rfl⟩ := tasksOK_cons_right _ _ _ _ _ hok
      rw [tasksOK_cons_iff] at hok
      obtain ⟨hz, hlen, hrest⟩ := hok
      simp only [mkArg_inputOff, mkArg_srcSize, mkArg_dstSize] at hz hlen
      simp only [List.map_cons, List.sum_cons] at hUdge ⊢
      have hUlt : Ud < U32 := by omega
      have hmodout : (0 + outSz) % U32 = 0 + outSz := Nat.mod_eq_of_lt (by omega)
      rw [hmodout] at hrest
      simp only [runTasksPar]
      rw [hmodout]
      rw [runTasksPar_char zstd payload D X E Ud rest os' 1 ((in0 + inSz) % U32) (0 + outSz)
        _ hrest (by omega) hU32 (by omega) a]
      simp only [flat, Nat.zero_add]
      by_cases hA : a < outSz
      · rw [if_neg (by omega)]
        have ho : a < 0 + o.length := by omega
        rw [dp_mkArg_out zstd payload buf D X E Ud inSz outSz 0 in0 0 o a hz
          (by omega) (fun _ => by omega) (by omega) ho]
        rw [if_pos (by omega)]
        rw [getB_append_left _ _ _ (by omega)]
        simp
      · by_cases hB : a < outSz + (rest.map Prod.snd).sum
        · rw [if_pos (by omega), if_pos hB]
          rw [getB_append_right _ _ _ (by omega)]
          congr 1
          omega
        · rw [if_neg (by omega), if_neg hB]
          by_cases hC : Ud ≤ a ∧ a < Ud + E
          · rw [if_pos hC]
            exact dp_mkArg_extra zstd payload buf D X E Ud inSz outSz in0 0 o a hz
              (by omega) hC.1 hC.2 hpl
          · rw [if_neg hC]
            exact dp_mkArg_frame_zero zstd payload buf D X E Ud inSz outSz in0 0 a
              (by omega) hC

lemma runTasksSync_eq_par (zstd : List Nat → Option (List Nat)) (payload : List Nat) :
    ∀ (args : List ThreadArgs) (os : List (List Nat)) (buf : Nat → Nat),
      tasksOK zstd payload args os = true →
      runTasksSync zstd payload buf args = some (runTasksPar zstd payload buf args) := by
  intro args
  induction args with
  | nil => intro os buf _; rfl
  | cons a args ih =>
      intro os buf h
      obtain ⟨o, os', rfl⟩ := tasksOK_cons_right _ _ _ _ _ h
      rw [tasksOK_cons_iff] at h
      obtain ⟨hz, hlen, hrest⟩ := h
      have hok2 : (decompressPartial zstd payload buf a).2 = true :=
        decompressPartial_ok zstd payload buf a o (zstdRun_of_ok _ _ _ _ hz (by omega))
      simp only [runTasksSync, runTasksPar]
      cases hd : decompressPartial zstd payload buf a with
      | mk buf1 ok =>
          rw [hd] at hok2
          subst hok2
          simp only
          rw [ih os' buf1 hrest]

lemma readData_uncompressedSize (d : List Nat) (parts : Nat) :
    (readData d parts).uncompressedSize = sumArrayU32 (readData d parts).outputSizes := by
  simp [readData]

lemma readData_extraDataOffset (d : List Nat) (parts : Nat) :
    (readData d parts).extraDataOffset =
      ((readData d parts).dataOffset + sumArrayU32 (readData d parts).inputSizes) % U32 := by
  simp [readData]

lemma decompressArgs_eq (payload : List Nat) (payloadSize : Nat) :
    decompressArgs payload payloadSize =
      mkArgsAux (readData payload (payloadParts payload)).dataOffset
        (readData payload (payloadParts payload)).extraDataOffset
        (decompressExtraSize payload payloadSize)
        (readData payload (payloadParts payload)).uncompressedSize
        ((readData payload (payloadParts payload)).inputSizes.zip
          (readData payload (payloadParts payload)).outputSizes) 0 0 0 := by
  simp only [decompressArgs]

lemma decompress_eq_par (zstd : List Nat → Option (List Nat)) (payload : List Nat)
    (payloadSize : Nat) (os : List (List Nat))
    (hok : tasksOK zstd payload (decompressArgs payload payloadSize) os = true) :
    decompress zstd payload payloadSize = some
      ⟨runTasksPar zstd payload (fun _ => 0) (decompressArgs payload payloadSize),
       (readData payload (payloadParts payload)).uncompressedSize,
       (readData payload (payloadParts payload)).extraDataOffset,
       ((readData payload (payloadParts payload)).uncompressedSize
         + decompressExtraSize payload payloadSize) % U32⟩ := by
  simp only [decompress]
  by_cases hp : payloadParts payload > 1
  · rw [if_pos hp]
  · rw [if_neg hp]
    rw [runTasksSync_eq_par zstd payload _ os _ hok]

lemma decompress_char (zstd : List Nat → Option (List Nat)) (payload : List Nat)
    (payloadSize : Nat) (os : List (List Nat))
    (hparts : 1 ≤ payloadParts payload)
    (hok : tasksOK zstd payload (decompressArgs payload payloadSize) os = true)
    (hsum : (readData payload (payloadParts payload)).outputSizes.sum
        + decompressExtraSize payload payloadSize < U32)
    (hpl : (readData payload (payloadParts payload)).extraDataOffset
        + decompressExtraSize payload payloadSize ≤ payload.length) :
    ∃ r, decompress zstd payload payloadSize = some r ∧
      r.uncompressedSize = (readData payload (payloadParts payload)).outputSizes.sum ∧
      r.extraDataOffset = (readData payload (payloadParts payload)).extraDataOffset ∧
      r.regionSize = (readData payload (payloadParts payload)).outputSizes.sum
        + decompressExtraSize payload payloadSize ∧
      ∀ a, r.buf a =
        if a < (readData payload (payloadParts payload)).outputSizes.sum then getB (flat os) a
        else if (readData payload (payloadParts payload)).outputSizes.sum ≤ a ∧
            a < (readData payload (payloadParts payload)).outputSizes.sum
              + decompressExtraSize payload payloadSize then
          getB payload ((readData payload (payloadParts payload)).extraDataOffset
            + (a - (readData payload (payloadParts payload)).outputSizes.sum))
        else 0 := by
  have hU : (readData payload (payloadParts payload)).uncompressedSize
      = (readData payload (payloadParts payload)).outputSizes.sum := by
    rw [readData_uncompressedSize]
    exact sumArrayU32_eq_of_lt _ (by omega)
  have hlin := readData_inputSizes_length payload (payloadParts payload)
  have hlout := readData_outputSizes_length payload (payloadParts payload)
  have hmap : (((readData payload (payloadParts payload)).inputSizes.zip
      (readData payload (payloadParts payload)).outputSizes).map Prod.snd)
      = (readData payload (payloadParts payload)).outputSizes :=
    List.map_snd_zip _ _ (by omega)
  have hne : (readData payload (payloadParts payload)).inputSizes.zip
      (readData payload (payloadParts payload)).outputSizes ≠ [] := by
    apply List.ne_nil_of_length_pos
    rw [List.length_zip]
    omega
  have hok' : tasksOK zstd payload
      (mkArgsAux (readData payload (payloadParts payload)).dataOffset
        (readData payload (payloadParts payload)).extraDataOffset
        (decompressExtraSize payload payloadSize)
        (readData payload (payloadParts payload)).uncompressedSize
        ((readData payload (payloadParts payload)).inputSizes.zip
          (readData payload (payloadParts payload)).outputSizes) 0 0 0) os = true := by
    rw [← decompressArgs_eq]
    exact hok
  refine ⟨_, decompress_eq_par zstd payload payloadSize os hok, hU, rfl, ?_, ?_⟩
  · rw [hU]
    exact Nat.mod_eq_of_lt hsum
  · intro a
    show runTasksPar zstd payload (fun _ => 0) (decompressArgs payload payloadSize) a = _
    rw [decompressArgs_eq]
    rw [runTasksPar_char0 zstd payload
      (readData payload (payloadParts payload)).dataOffset
      (readData payload (payloadParts payload)).extraDataOffset
      (decompressExtraSize payload payloadSize)
      (readData payload (payloadParts payload)).uncompressedSize
      ((readData payload (payloadParts payload)).inputSizes.zip
        (readData payload (payloadParts payload)).outputSizes) os 0 (fun _ => 0)
      hok' (by rw [hmap, hU]) (by rw [hU]; omega) hne hpl a]
    rw [hmap, hU]

lemma decompressExtraSize_eq (payload : List Nat) (payloadSize : Nat)
    (hX4 : (readData payload (payloadParts payload)).extraDataOffset + 4 ≤ payloadSize)
    (hps : payloadSize < U32) :
    decompressExtraSize payload payloadSize =
      payloadSize - (readData payload (payloadParts payload)).extraDataOffset - 4 := by
  have hX : (readData payload (payloadParts payload)).extraDataOffset < U32 := by
    rw [readData_extraDataOffset]
    exact Nat.mod_lt _ (by norm_num [U32])
  unfold decompressExtraSize u32sub
  simp only [U32] at hX hps ⊢
  omega

lemma i32str_small (n : Nat) (h : n < 2147483648) : i32str n = toString n := by
  simp [i32str, h]

/-- C5: on a successful run the extra segment appears untouched at offset
uncompressedSize in the destination region (placed there by the task for
part 0), the extra size is payloadSize - extraDataOffset - 4, and the
published LLRT_BYTECODE_OFFSET / LLRT_BYTECODE_SIZE variables (absent from
the environment before the run) hold exactly that offset and size. -/
theorem c5_extra_segment_placement (zstd : List Nat → Option (List Nat)) (payload : List Nat)
    (payloadSize : Nat) (os : List (List Nat)) (env : Env) (u st rs fd : String)
    (hparts : 1 ≤ payloadParts payload)
    (hok : tasksOK zstd payload (decompressArgs payload payloadSize) os = true)
    (hsum : (readData payload (payloadParts payload)).outputSizes.sum
        + decompressExtraSize payload payloadSize < U32)
    (hpl : (readData payload (payloadParts payload)).extraDataOffset
        + decompressExtraSize payload payloadSize ≤ payload.length)
    (hX4 : (readData payload (payloadParts payload)).extraDataOffset + 4 ≤ payloadSize)
    (hps : payloadSize < U32)
    (hU31 : (readData payload (payloadParts payload)).outputSizes.sum < 2147483648)
    (hE31 : decompressExtraSize payload payloadSize < 2147483648)
    (hbo : getenvE env "LLRT_BYTECODE_OFFSET" = none)
    (hbs : getenvE env "LLRT_BYTECODE_SIZE" = none) :
    ∃ r, decompress zstd payload payloadSize = some r ∧
      (∀ a, r.uncompressedSize ≤ a →
        a < r.uncompressedSize + decompressExtraSize payload payloadSize →
        r.buf a = getB payload (r.extraDataOffset + (a - r.uncompressedSize))) ∧
      decompressExtraSize payload payloadSize = payloadSize - r.extraDataOffset - 4 ∧
      getenvE (publishEnv env u st rs fd (i32str r.uncompressedSize)
        (i32str (decompressExtraSize payload payloadSize))) "LLRT_BYTECODE_OFFSET"
        = some (toString r.uncompressedSize) ∧
      getenvE (publishEnv env u st rs fd (i32str r.uncompressedSize)
        (i32str (decompressExtraSize payload payloadSize))) "LLRT_BYTECODE_SIZE"
        = some (toString (payloadSize - r.extraDataOffset - 4)) := by
  obtain ⟨r, hr, hU, hX, hR, hbuf⟩ :=
    decompress_char zstd payload payloadSize os hparts hok hsum hpl
  have hi1 : i32str r.uncompressedSize = toString r.uncompressedSize :=
    i32str_small _ (by omega)
  have hi2 : i32str (decompressExtraSize payload payloadSize)
      = toString (decompressExtraSize payload payloadSize) := i32str_small _ hE31
  have hEeq := decompressExtraSize_eq payload payloadSize hX4 hps
  refine ⟨r, hr, ?_, ?_, ?_, ?_⟩
  · intro a h1 h2
    rw [hU] at h1 h2
    rw [hbuf a]
    rw [if_neg (by omega), if_pos ⟨h1, h2⟩]
    rw [hU, hX]
  · rw [hX]
    exact hEeq
  · rw [hi1, hi2]
    simp only [publishEnv]
    apply getenvE_setenvE_false_preserves
    apply getenvE_setenvE_false_absent
    rw [getenvE_setenvE_ne _ _ _ _ _ (by decide)]
    rw [getenvE_setenvE_ne _ _ _ _ _ (by decide)]
    rw [getenvE_setenvE_ne _ _ _ _ _ (by decide)]
    rw [getenvE_setenvE_ne _ _ _ _ _ (by decide)]
    rw [getenvE_setenvE_ne _ _ _ _ _ (by decide)]
    exact hbo
  · rw [hi1, hi2, hX, hEeq]
    simp only [publishEnv]
    apply getenvE_setenvE_false_absent
    rw [getenvE_setenvE_ne _ _ _ _ _ (by decide)]
    rw [getenvE_setenvE_ne _ _ _ _ _ (by decide)]
    rw [getenvE_setenvE_ne _ _ _ _ _ (by decide)]
    rw [getenvE_setenvE_ne _ _ _ _ _ (by decide)]
    rw [getenvE_setenvE_ne _ _ _ _ _ (by decide)]
    rw [getenvE_setenvE_ne _ _ _ _ _ (by decide)]
    exact hbs

theorem c5_extra_segment_placement_witness :
    tasksOK zstdW6 payloadW1 (decompressArgs payloadW1 16) [[10, 20, 30]] = true ∧
    (∃ r, decompress zstdW6 payloadW1 16 = some r ∧
      (∀ a, r.uncompressedSize ≤ a →
        a < r.uncompressedSize + decompressExtraSize payloadW1 16 →
        r.buf a = getB payloadW1 (r.extraDataOffset + (a - r.uncompressedSize))) ∧
      decompressExtraSize payloadW1 16 = 16 - r.extraDataOffset - 4 ∧
      getenvE (publishEnv [] "/app" "t0" "102MiB" "3" (i32str r.uncompressedSize)
        (i32str (decompressExtraSize payloadW1 16))) "LLRT_BYTECODE_OFFSET"
        = some (toString r.uncompressedSize) ∧
      getenvE (publishEnv [] "/app" "t0" "102MiB" "3" (i32str r.uncompressedSize)
        (i32str (decompressExtraSize payloadW1 16))) "LLRT_BYTECODE_SIZE"
        = some (toString (16 - r.extraDataOffset - 4))) :=
  ⟨by decide,
   c5_extra_segment_placement zstdW6 payloadW1 16 [[10, 20, 30]] [] "/app" "t0" "102MiB" "3"
     (by decide) (by decide) (by decide) (by decide) (by decide) (by decide) (by decide)
     (by decide) (by decide) (by decide)⟩

/-- C6: a single-part payload decompressed synchronously and a multi-part
payload carrying the same logical content (per-part contents concatenating
to the single part's content, identical extra segments) produce
byte-identical destination buffers. -/
theorem c6_single_multi_equivalence (zstd : List Nat → Option (List Nat))
    (payload1 payloadN : List Nat) (size1 sizeN : Nat)
    (o : List Nat) (os : List (List Nat))
    (h1 : payloadParts payload1 = 1)
    (hN : 2 ≤ payloadParts payloadN)
    (hok1 : tasksOK zstd payload1 (decompressArgs payload1 size1) [o] = true)
    (hokN : tasksOK zstd payloadN (decompressArgs payloadN sizeN) os = true)
    (hflat : flat os = o)
    (hE : decompressExtraSize payload1 size1 = decompressExtraSize payloadN sizeN)
    (hextra : ∀ k, k < decompressExtraSize payload1 size1 →
        getB payload1 ((readData payload1 (payloadParts payload1)).extraDataOffset + k) =
        getB payloadN ((readData payloadN (payloadParts payloadN)).extraDataOffset + k))
    (hsum1 : (readData payload1 (payloadParts payload1)).outputSizes.sum
        + decompressExtraSize payload1 size1 < U32)
    (hsumN : (readData payloadN (payloadParts payloadN)).outputSizes.sum
        + decompressExtraSize payloadN sizeN < U32)
    (hpl1 : (readData payload1 (payloadParts payload1)).extraDataOffset
        + decompressExtraSize payload1 size1 ≤ payload1.length)
    (hplN : (readData payloadN (payloadParts payloadN)).extraDataOffset
        + decompressExtraSize payloadN sizeN ≤ payloadN.length) :
    ∃ r1 rN, decompress zstd payload1 size1 = some r1 ∧
      decompress zstd payloadN sizeN = some rN ∧ ∀ a, r1.buf a = rN.buf a := by
  obtain ⟨r1, hr1, hU1, hX1, hR1, hbuf1⟩ :=
    decompress_char zstd payload1 size1 [o] (by omega) hok1 hsum1 hpl1
  obtain ⟨rN, hrN, hUN, hXN, hRN, hbufN⟩ :=
    decompress_char zstd payloadN sizeN os (by omega) hokN hsumN hplN
  have hS1 : (readData payload1 (payloadParts payload1)).outputSizes.sum = o.length := by
    have hl := tasksOK_flat_length zstd payload1 _ _ hok1
    rw [decompressArgs_eq, mkArgsAux_map_dstSize, List.map_snd_zip _ _
      (by rw [readData_inputSizes_length, readData_outputSizes_length])] at hl
    rw [← hl]
    simp [flat]
  have hSN : (readData payloadN (payloadParts payloadN)).outputSizes.sum = o.length := by
    have hl := tasksOK_flat_length zstd payloadN _ _ hokN
    rw [decompressArgs_eq, mkArgsAux_map_dstSize, List.map_snd_zip _ _
      (by rw [readData_inputSizes_length, readData_outputSizes_length])] at hl
    rw [← hl, hflat]
  refine ⟨r1, rN, hr1, hrN, ?_⟩
  intro a
  rw [hbuf1 a, hbufN a, hS1, hSN, ← hE, hflat]
  by_cases hA : a < o.length
  · rw [if_pos hA, if_pos hA]
    simp [flat]
  · rw [if_neg hA, if_neg hA]
    by_cases hB : o.length ≤ a ∧ a < o.length + decompressExtraSize payload1 size1
    · rw [if_pos hB, if_pos hB]
      exact hextra (a - o.length) (by omega)
    · rw [if_neg hB, if_neg hB]

theorem c6_single_multi_equivalence_witness :
    tasksOK zstdW6 payloadW1 (decompressArgs payloadW1 16) [[10, 20, 30]] = true ∧
    tasksOK zstdW6 payloadW2 (decompressArgs payloadW2 25) [[10], [20, 30]] = true ∧
    (∃ r1 rN, decompress zstdW6 payloadW1 16 = some r1 ∧
      decompress zstdW6 payloadW2 25 = some rN ∧ ∀ a, r1.buf a = rN.buf a) :=
  ⟨by decide, by decide,
   c6_single_multi_equivalence zstdW6 payloadW1 payloadW2 16 25 [10, 20, 30] [[10], [20, 30]]
     (by decide) (by decide) (by decide) (by decide) (by decide) (by decide) (by decide)
     (by decide) (by decide) (by decide) (by decide)⟩

lemma cover_exists (l : List Nat) : ∀ a, a < l.sum →
    ∃ k, k < l.length ∧ (l.take k).sum ≤ a ∧ a < (l.take k).sum + getB l k := by
  induction l with
  | nil => intro a ha; simp at ha
  | cons b rest ih =>
      intro a ha
      by_cases hb : a < b
      · exact ⟨0, by simp, by simp, by simpa [getB] using hb⟩
      · rw [List.sum_cons] at ha
        obtain ⟨k, hk, h1, h2⟩ := ih (a - b) (by omega)
        refine ⟨k + 1, by simpa using hk, ?_, ?_⟩
        · simp only [List.take_succ_cons, List.sum_cons]
          omega
        · simp only [List.take_succ_cons, List.sum_cons, getB]
          omega

/-- C4: the destination region is sized to sum(output_sizes) + extraSize;
part k reads input_sizes[k] bytes at input offset sum(input_sizes[0..k])
within the compressed blocks and writes output_sizes[k] bytes at output
offset sum(output_sizes[0..k]); these output ranges are pairwise disjoint
and cover the decompressed region; and a task changes no byte outside its
assigned output range, except that task 0 also writes the extra segment at
its region past the decompressed output. -/
theorem c4_partition_invariants (zstd : List Nat → Option (List Nat)) (payload : List Nat)
    (payloadSize : Nat)
    (hin : (readData payload (payloadParts payload)).inputSizes.sum < U32)
    (hout : (readData payload (payloadParts payload)).outputSizes.sum
        + decompressExtraSize payload payloadSize < U32) :
    ((readData payload (payloadParts payload)).uncompressedSize
      + decompressExtraSize payload payloadSize) % U32
      = (readData payload (payloadParts payload)).outputSizes.sum
        + decompressExtraSize payload payloadSize ∧
    (∀ k, k < payloadParts payload →
      ((decompressArgs payload payloadSize).getD k argDefault).srcSize
          = getB (readData payload (payloadParts payload)).inputSizes k ∧
      ((decompressArgs payload payloadSize).getD k argDefault).dstSize
          = getB (readData payload (payloadParts payload)).outputSizes k ∧
      ((decompressArgs payload payloadSize).getD k argDefault).inputOff
          = (readData payload (payloadParts payload)).dataOffset
            + (((readData payload (payloadParts payload)).inputSizes.take k).sum) ∧
      ((decompressArgs payload payloadSize).getD k argDefault).outputOff
          = (((readData payload (payloadParts payload)).outputSizes.take k).sum)) ∧
    (∀ i j, i < j → j < payloadParts payload →
      ((readData payload (payloadParts payload)).outputSizes.take i).sum
        + getB (readData payload (payloadParts payload)).outputSizes i
        ≤ ((readData payload (payloadParts payload)).outputSizes.take j).sum) ∧
    (∀ a, a < (readData payload (payloadParts payload)).outputSizes.sum →
      ∃ k, k < payloadParts payload ∧
        ((readData payload (payloadParts payload)).outputSizes.take k).sum ≤ a ∧
        a < ((readData payload (payloadParts payload)).outputSizes.take k).sum
          + getB (readData payload (payloadParts payload)).outputSizes k) ∧
    (∀ k, k < payloadParts payload → ∀ (buf : Nat → Nat) (a : Nat),
      (decompressPartial zstd payload buf
        ((decompressArgs payload payloadSize).getD k argDefault)).1 a ≠ buf a →
      (((readData payload (payloadParts payload)).outputSizes.take k).sum ≤ a ∧
        a < ((readData payload (payloadParts payload)).outputSizes.take k).sum
          + getB (readData payload (payloadParts payload)).outputSizes k) ∨
      (k = 0 ∧ (readData payload (payloadParts payload)).outputSizes.sum ≤ a ∧
        a < (readData payload (payloadParts payload)).outputSizes.sum
          + decompressExtraSize payload payloadSize)) := by
  have hlin := readData_inputSizes_length payload (payloadParts payload)
  have hlout := readData_outputSizes_length payload (payloadParts payload)
  have hmapf : (((readData payload (payloadParts payload)).inputSizes.zip
      (readData payload (payloadParts payload)).outputSizes).map Prod.fst)
      = (readData payload (payloadParts payload)).inputSizes :=
    List.map_fst_zip _ _ (by omega)
  have hmaps : (((readData payload (payloadParts payload)).inputSizes.zip
      (readData payload (payloadParts payload)).outputSizes).map Prod.snd)
      = (readData payload (payloadParts payload)).outputSizes :=
    List.map_snd_zip _ _ (by omega)
  have hzlen : ((readData payload (payloadParts payload)).inputSizes.zip
      (readData payload (payloadParts payload)).outputSizes).length
      = payloadParts payload := by
    rw [List.length_zip]
    omega
  have hU : (readData payload (payloadParts payload)).uncompressedSize
      = (readData payload (payloadParts payload)).outputSizes.sum := by
    rw [readData_uncompressedSize]
    exact sumArrayU32_eq_of_lt _ (by omega)
  have harg : ∀ k, k < payloadParts payload →
      (decompressArgs payload payloadSize).getD k argDefault =
      { srcSize := getB (readData payload (payloadParts payload)).inputSizes k,
        dstSize := getB (readData payload (payloadParts payload)).outputSizes k,
        id := k,
        extraSize := if k = 0 then decompressExtraSize payload payloadSize else 0,
        inputOff := (readData payload (payloadParts payload)).dataOffset
          + (((readData payload (payloadParts payload)).inputSizes.take k).sum),
        outputOff := (((readData payload (payloadParts payload)).outputSizes.take k).sum),
        extraSrcOff := (readData payload (payloadParts payload)).extraDataOffset,
        extraDstOff := (readData payload (payloadParts payload)).outputSizes.sum } := by
    intro k hk
    rw [decompressArgs_eq]
    rw [mkArgsAux_getD _ _ _ _ _ k 0 0 0 (by omega)
      (by rw [hmapf]; omega) (by rw [hmaps]; omega)]
    rw [zip_getB _ _ _ (by omega) (by omega)]
    rw [hmapf, hmaps, hU]
    simp
  refine ⟨?_, ?_, ?_, ?_, ?_⟩
  · rw [hU]
    exact Nat.mod_eq_of_lt hout
  · intro k hk
    rw [harg k hk]
    exact ⟨rfl, rfl, rfl, rfl⟩
  · intro i j hij hj
    have h1 := sum_take_succ_getB (readData payload (payloadParts payload)).outputSizes i
      (by omega)
    have h2 := sum_take_mono (readData payload (payloadParts payload)).outputSizes (i + 1) j
      (by omega)
    omega
  · intro a ha
    obtain ⟨k, hk, hk1, hk2⟩ := cover_exists _ a ha
    exact ⟨k, by omega, hk1, hk2⟩
  · intro k hk buf a hchange
    rw [harg k hk] at hchange
    by_contra hcon
    rw [not_or] at hcon
    obtain ⟨hc1, hc2⟩ := hcon
    apply hchange
    apply decompressPartial_frame
    · exact hc1
    · by_cases hk0 : k = 0
      · subst hk0
        dsimp only
        rw [if_pos rfl]
        intro hc
        exact hc2 ⟨rfl, hc.1, hc.2⟩
      · dsimp only
        rw [if_neg hk0]
        intro hc
        omega

theorem c4_partition_invariants_witness :
    (readData payloadW2 (payloadParts payloadW2)).inputSizes.sum < U32 ∧
    (((readData payloadW2 (payloadParts payloadW2)).uncompressedSize
      + decompressExtraSize payloadW2 25) % U32
      = (readData payloadW2 (payloadParts payloadW2)).outputSizes.sum
        + decompressExtraSize payloadW2 25 ∧
    (∀ k, k < payloadParts payloadW2 →
      ((decompressArgs payloadW2 25).getD k argDefault).srcSize
          = getB (readData payloadW2 (payloadParts payloadW2)).inputSizes k ∧
      ((decompressArgs payloadW2 25).getD k argDefault).dstSize
          = getB (readData payloadW2 (payloadParts payloadW2)).outputSizes k ∧
      ((decompressArgs payloadW2 25).getD k argDefault).inputOff
          = (readData payloadW2 (payloadParts payloadW2)).dataOffset
            + (((readData payloadW2 (payloadParts payloadW2)).inputSizes.take k).sum) ∧
      ((decompressArgs payloadW2 25).getD k argDefault).outputOff
          = (((readData payloadW2 (payloadParts payloadW2)).outputSizes.take k).sum)) ∧
    (∀ i j, i < j → j < payloadParts payloadW2 →
      ((readData payloadW2 (payloadParts payloadW2)).outputSizes.take i).sum
        + getB (readData payloadW2 (payloadParts payloadW2)).outputSizes i
        ≤ ((readData payloadW2 (payloadParts payloadW2)).outputSizes.take j).sum) ∧
    (∀ a, a < (readData payloadW2 (payloadParts payloadW2)).outputSizes.sum →
      ∃ k, k < payloadParts payloadW2 ∧
        ((readData payloadW2 (payloadParts payloadW2)).outputSizes.take k).sum ≤ a ∧
        a < ((readData payloadW2 (payloadParts payloadW2)).outputSizes.take k).sum
          + getB (readData payloadW2 (payloadParts payloadW2)).outputSizes k) ∧
    (∀ k, k < payloadParts payloadW2 → ∀ (buf : Nat → Nat) (a : Nat),
      (decompressPartial zstdW6 payloadW2 buf
        ((decompressArgs payloadW2 25).getD k argDefault)).1 a ≠ buf a →
      (((readData payloadW2 (payloadParts payloadW2)).outputSizes.take k).sum ≤ a ∧
        a < ((readData payloadW2 (payloadParts payloadW2)).outputSizes.take k).sum
          + getB (readData payloadW2 (payloadParts payloadW2)).outputSizes k) ∨
      (k = 0 ∧ (readData payloadW2 (payloadParts payloadW2)).outputSizes.sum ≤ a ∧
        a < (readData payloadW2 (payloadParts payloadW2)).outputSizes.sum
          + decompressExtraSize payloadW2 25))) :=
  ⟨by decide, c4_partition_invariants zstdW6 payloadW2 25 (by decide) (by decide)⟩

end LLRT
